import Mathlib

/-!
Verification of the task-completion / session-termination detectors of the
desert-survival-streamlit repository.

The repository is a family of near-identical Streamlit chat apps. Its core
logic, shared verbatim by the variants, consists of:

* `_normalize_item`, `_parse_ranked_items`, `_parse_unordered_items_in_order`
  and `detect_task_completed` (identical in
  `src/crisis_role_task_prompt_absence_success/app.py`,
  `src/flight_role_social_prompt_presence/app.py`,
  `src/crisis_role_social_prompt_presence/app.py`,
  `src/crisis_role_social_prompt_absence_failure/app.py` and
  `src/flight_role_task_prompt_absence/app.py`);
* `detect_hr_final_selection` in `src/prompt_1007/assistant_p.py`;
* the per-turn session logic at module level of those files and the staged
  chat flow of `src/assistant_app/app.py`.

The Python functions are embedded as executable Lean functions on `List Char`
(a Python `str` is a sequence of Unicode code points, as is `String.data`).
The two regular expressions of `_parse_ranked_items` are fixed pattern
literals; they are hand-compiled here into deterministic scanners that follow
Python `re` semantics (leftmost match, alternatives tried left to right with
backtracking, greedy quantifiers with backtracking).  Where a scanner loops
over positions of the text, the Lean definition carries a fuel argument
initialised to `length + 1`; every iteration advances the scan position by at
least one character, so the fuel is never exhausted and the zero-fuel branch
is dead code present only to make the recursion structural.
-/

set_option maxHeartbeats 1600000
set_option maxRecDepth 8192

/-- Code points matched by Python's `\s` (and stripped by `str.strip()`) on
`str` input: ASCII whitespace, the C1 separators, and Unicode space
characters. -/
def pySpaceCodes : List Nat :=
  [9, 10, 11, 12, 13, 28, 29, 30, 31, 32, 133, 160, 5760,
   8192, 8193, 8194, 8195, 8196, 8197, 8198, 8199, 8200, 8201, 8202,
   8232, 8233, 8239, 8287, 12288]

/-- Python `\s` / `str.strip` whitespace test. -/
def isPySpace (c : Char) : Bool := pySpaceCodes.contains c.toNat

/-- Python `str.strip()`: remove whitespace from both ends. -/
def pyStrip (s : List Char) : List Char :=
  ((s.dropWhile isPySpace).reverse.dropWhile isPySpace).reverse

/-- Python substring containment `needle in hay` on strings. -/
def containsSeq (hay needle : List Char) : Bool :=
  match hay with
  | [] => needle.isEmpty
  | _ :: t => needle.isPrefixOf hay || containsSeq t needle

/-- `ITEM_ALIASES` of app.py: canonical item name to its surface aliases, in
the dict's insertion order (Python dicts iterate in insertion order). -/
def ITEM_ALIASES : List (String × List String) :=
  [("打火机", ["打火机"]),
   ("压缩饼干", ["压缩饼干", "饼干"]),
   ("淡水", ["淡水", "水"]),
   ("信号镜", ["信号镜", "镜子"]),
   ("鲨鱼驱赶剂", ["鲨鱼驱赶剂", "驱鲨剂", "驱鲨"]),
   ("尼龙绳", ["尼龙绳", "绳子", "绳"]),
   ("塑料布", ["塑料布", "塑胶布", "塑料薄膜"]),
   ("匕首", ["匕首", "小刀", "刀"]),
   ("急救包", ["急救包", "医药包", "医疗包"]),
   ("渔网", ["渔网", "捕鱼网", "网"])]

/-- `CIRCLED` of app.py: circled numeral glyphs to their values. -/
def CIRCLED : List (Char × Nat) :=
  [('①', 1), ('②', 2), ('③', 3), ('④', 4), ('⑤', 5),
   ('⑥', 6), ('⑦', 7), ('⑧', 8), ('⑨', 9), ('⑩', 10)]

/-- `SEPS` of app.py: the separator character set used for boundary checks. -/
def SEPS : String := " ，,、\n\r\t。；;:()[]【】<>-—*_"

/-- Membership in `SEPS`. -/
def isSep (c : Char) : Bool := SEPS.data.contains c

/-- `_normalize_item` of app.py: strip the token, then return the first
canonical item (in dict order) one of whose aliases occurs in the token as a
substring; `None` when no alias matches.  The inner loop `for a in aliases:
if a and a in token: return key` is the `any` below. -/
def _normalize_item (token : List Char) : Option String :=
  let tok := pyStrip token
  ITEM_ALIASES.findSome? fun p =>
    if p.2.any (fun a => !a.data.isEmpty && containsSeq tok a.data) then some p.1
    else none

/-- Value of a circled numeral glyph, `CIRCLED.get(...)`. -/
def circledVal (c : Char) : Option Nat :=
  (CIRCLED.find? fun p => p.1 == c).map (·.2)

/-- The delimiter class `[\.、:）\)]` of both ranked-list patterns. -/
def isDelim (c : Char) : Bool :=
  c == '.' || c == '、' || c == ':' || c == '）' || c == ')'

/-- One-or-more characters outside `stop` (`[^…]+`), greedy, at the head of
`l`; `none` when the head character is already stopped or `l` is empty. -/
def bodyFrom (stop : Char → Bool) (l : List Char) :
    Option (List Char × List Char) :=
  match l with
  | [] => none
  | c :: _ =>
    if stop c then none
    else some (l.takeWhile (fun d => !stop d), l.dropWhile (fun d => !stop d))

/-- Backtracking for a greedy `\s*` before `[^…]+`: `wRev` is the reversed
not-yet-released part of the whitespace run, `tail` the text after it.  The
regex engine first lets `\s*` keep the whole run, then gives characters back
one at a time from the right until the body can match. -/
def backtrackBody (stop : Char → Bool) :
    List Char → List Char → Option (List Char × List Char)
  | [], tail => bodyFrom stop tail
  | c :: wr, tail =>
    match bodyFrom stop tail with
    | some p => some p
    | none => backtrackBody stop wr (c :: tail)

/-- `\s*([^…]+)` with Python greedy/backtracking semantics: take the maximal
whitespace run, then find the longest retained prefix of it after which a
non-empty body starts. -/
def tryBody (stop : Char → Bool) (r : List Char) :
    Option (List Char × List Char) :=
  backtrackBody stop (r.takeWhile isPySpace).reverse (r.dropWhile isPySpace)

/-- The ordinal group `((?:10|[1-9])|[①②③④⑤⑥⑦⑧⑨⑩])` of both patterns,
hand-compiled with its alternative order: `10` is preferred; on failure of
the rest of the pattern after `10`, the engine backtracks to `[1-9]`
matching the single character `1`; circled glyphs are the final
alternative.  `k` is the continuation for the rest of the pattern. -/
def tryOrd (s : List Char)
    (k : Nat → List Char → Option (Nat × List Char × List Char)) :
    Option (Nat × List Char × List Char) :=
  match s with
  | [] => none
  | c :: r =>
    if c == '1' then
      match r with
      | '0' :: r2 =>
        match k 10 r2 with
        | some x => some x
        | none => k 1 r
      | _ => k 1 r
    else if 50 ≤ c.toNat && c.toNat ≤ 57 then k (c.toNat - 48) r
    else
      match circledVal c with
      | some n => k n r
      | none => none

/-- The stop class of Form A's body `([^\n]+)`. -/
def stopA (c : Char) : Bool := c == '\n'

/-- Form A of `_parse_ranked_items` (`pattern_line`, compiled with `re.M`):
`^\s*((?:10|[1-9])|[①②③④⑤⑥⑦⑧⑨⑩])[\.、:）\)]?\s*([^\n]+)$` attempted at a
line-start position.  Returns the ordinal, the body group, and the text after
the match.  The leading `\s*` is deterministic because no ordinal character
is whitespace; the trailing `$` always holds after the greedy `[^\n]+`.  The
optional delimiter is greedy: it is consumed when present, and released if
the rest of the pattern then fails. -/
def matchA (s : List Char) : Option (Nat × List Char × List Char) :=
  tryOrd (s.dropWhile isPySpace) fun n r =>
    let noDelim := (tryBody stopA r).map fun p => (n, p.1, p.2)
    match r with
    | [] => noDelim
    | c :: r2 =>
      if isDelim c then
        match tryBody stopA r2 with
        | some p => some (n, p.1, p.2)
        | none => noDelim
      else noDelim

/-- `finditer` of Form A over the whole text: only line starts can start a
match (the pattern is anchored with `^`); after a match the scan resumes at
its end, which is either the end of the text or a `'\n'`; after a failed
line the scan resumes after the next `'\n'`.  Fuel, initialised to
`length + 1`, only bounds the recursion. -/
def scanAGo : Nat → List Char → List (Nat × List Char)
  | 0, _ => []
  | fuel + 1, s =>
    match matchA s with
    | some (n, b, rest) =>
      (n, b) ::
        (match rest with
         | '\n' :: r => scanAGo fuel r
         | _ => [])
    | none =>
      match s.dropWhile (fun c => c != '\n') with
      | _ :: r => scanAGo fuel r
      | [] => []

/-- All Form A matches of the text, leftmost first. -/
def scanA (s : List Char) : List (Nat × List Char) := scanAGo (s.length + 1) s

/-- The stop class of Form B's body `([^，,、\n]+)`. -/
def stopB (c : Char) : Bool :=
  c == '，' || c == ',' || c == '、' || c == '\n'

/-- Form B of `_parse_ranked_items` (`pattern_inline`, no `re.M`):
ordinal, mandatory delimiter and body, i.e. the part of
`(?:^|\s)((?:10|[1-9])|[①②③④⑤⑥⑦⑧⑨⑩])[\.、:）\)]\s*([^，,、\n]+)` after its
`(?:^|\s)` prefix. -/
def matchBCore (s : List Char) : Option (Nat × List Char × List Char) :=
  tryOrd s fun n r =>
    match r with
    | [] => none
    | c :: r2 =>
      if isDelim c then (tryBody stopB r2).map fun p => (n, p.1, p.2)
      else none

/-- `findall` of Form B: at each position first try the zero-width `^`
alternative (string start only: the pattern is not multiline), then the `\s`
alternative which consumes one whitespace character; on failure advance one
position, after a match resume at its end. -/
def scanBGo : Nat → List Char → Bool → List (Nat × List Char)
  | 0, _, _ => []
  | fuel + 1, s, atStart =>
    let m :=
      match (if atStart then matchBCore s else none) with
      | some x => some x
      | none =>
        match s with
        | c :: r => if isPySpace c then matchBCore r else none
        | [] => none
    match m with
    | some (n, b, rest) => (n, b) :: scanBGo fuel rest false
    | none =>
      match s with
      | _ :: r => scanBGo fuel r false
      | [] => []

/-- All Form B matches of the text, leftmost first. -/
def scanB (s : List Char) : List (Nat × List Char) :=
  scanBGo (s.length + 1) s true

/-- The accumulation loop of `_parse_ranked_items`: for every matched
`(num, body)` pair whose body resolves to an item, add the ordinal and the
item to the respective sets (Python `set` semantics: Finsets). -/
def accumulate : List (Nat × List Char) → Finset Nat × Finset String
  | [] => (∅, ∅)
  | (n, b) :: rest =>
    let acc := accumulate rest
    match _normalize_item b with
    | some key => (insert n acc.1, insert key acc.2)
    | none => acc

/-- `_parse_ranked_items` of app.py: the set of claimed ordinals, the set of
resolved items, and the raw count of matched pairs.  `if not text` is the
empty-text early return. -/
def _parse_ranked_items (text : String) : Finset Nat × Finset String × Nat :=
  if text.data = [] then (∅, ∅, 0)
  else
    let items := scanA text.data ++ scanB text.data
    let acc := accumulate items
    (acc.1, acc.2, items.length)

/-- The claimed-ordinal set of `_parse_ranked_items`. -/
def rankedNums (t : String) : Finset Nat := (_parse_ranked_items t).1

/-- The resolved-item set of `_parse_ranked_items`. -/
def rankedGoods (t : String) : Finset String := (_parse_ranked_items t).2.1

/-- The `alias -> canonical key` pairs in iteration order of the
`alias2key[a] = k` construction loop of `_parse_unordered_items_in_order`. -/
def aliasPairs : List (String × String) :=
  ITEM_ALIASES.flatMap fun p => p.2.map fun a => (a, p.1)

/-- `alias2key.get`: a dict built by successive assignment keeps the last
binding of a key, hence the reversed lookup (every alias is in fact bound
once). -/
def alias2key (a : String) : Option String :=
  (aliasPairs.reverse.find? fun q => q.1 == a).map (·.2)

/-- `all_aliases` before sorting. -/
def all_aliases : List String := aliasPairs.map (·.1)

/-- Stable insertion into a list kept sorted by decreasing string length. -/
def insertLenDesc (a : String) : List String → List String
  | [] => [a]
  | b :: bs =>
    if a.length < b.length then b :: insertLenDesc a bs else a :: b :: bs

/-- `sorted(set(all_aliases), key=len, reverse=True)`.  The iteration order
of the Python `set` is unspecified, but two distinct aliases of equal length
can never both match at one text position, so only the length ordering is
observable; we fix the stable order over first occurrences. -/
def sortedAliases : List String := (all_aliases.eraseDups).foldr insertLenDesc []

/-- The compiled alternation `re.compile("|".join(map(re.escape,
all_aliases)))` applied at one position: the first alternative (hence the
longest alias, by the sort) whose text starts at this position. -/
def matchAliasAt (s : List Char) (p : Nat) : Option String :=
  sortedAliases.find? fun a => a.data.isPrefixOf (s.drop p)

/-- `pattern.search(s, i)`: the leftmost position `≥ i` where some alias
matches, together with the matched alias. -/
def searchAliasFrom (s : List Char) (i : Nat) : Option (Nat × String) :=
  (List.range' i (s.length - i)).findSome? fun p =>
    (matchAliasAt s p).map fun a => (p, a)

/-- The `prev_ok`/`next_ok` separator-boundary test of
`_parse_unordered_items_in_order` for a match spanning `[start, e)`. -/
def boundaryOk (s : List Char) (start e : Nat) : Bool :=
  (start == 0 || isSep (s.getD (start - 1) 'x')) &&
  (e == s.length || isSep (s.getD e 'x'))

/-- The scan loop of `_parse_unordered_items_in_order`: on a boundary-valid
match record the first occurrence of the resolved item and continue after
the match (stopping once 10 items are collected); on a boundary violation
advance by one character.  Fuel bounds the recursion as before. -/
def unorderedGo : Nat → List Char → Nat → List String → List String → List String
  | 0, _, _, _, ordered => ordered
  | fuel + 1, s, i, seen, ordered =>
    match searchAliasFrom s i with
    | none => ordered
    | some (start, a) =>
      if boundaryOk s start (start + a.length) then
        match alias2key a with
        | some key =>
          if seen.contains key then
            unorderedGo fuel s (start + a.length) seen ordered
          else if (ordered ++ [key]).length == 10 then ordered ++ [key]
          else unorderedGo fuel s (start + a.length) (key :: seen) (ordered ++ [key])
        | none => unorderedGo fuel s (start + a.length) seen ordered
      else unorderedGo fuel s (start + 1) seen ordered

/-- `_parse_unordered_items_in_order` of app.py. -/
def _parse_unordered_items_in_order (text : String) : List String :=
  if text.data = [] then []
  else unorderedGo (text.data.length + 1) text.data 0 [] []

/-- The first completion rule of `detect_task_completed`: the claimed-ordinal
set has exactly 10 elements, contains every `n` in `range(1, 11)`, and the
resolved-item set has exactly 10 elements. -/
def rankedComplete (t : String) : Bool :=
  let r := _parse_ranked_items t
  r.1.card == 10 && ((List.range' 1 10).all fun n => decide (n ∈ r.1)) &&
    r.2.1.card == 10

/-- `detect_task_completed` of app.py: the numbered rule, or (for
user-authored text only) 10 distinct items found in free order. -/
def detect_task_completed (latest_text : String) (by_user : Bool) : Bool :=
  rankedComplete latest_text ||
    (by_user && (_parse_unordered_items_in_order latest_text).length == 10)

/-- ASCII-range model of Python `str.upper()`: the only cased characters
occurring in the shortlist task's inputs are ASCII letters. -/
def pyUpperChar (c : Char) : Char :=
  if 97 ≤ c.toNat && c.toNat ≤ 122 then Char.ofNat (c.toNat - 32) else c

/-- ASCII-range model of Python `str.lower()`. -/
def pyLowerChar (c : Char) : Char :=
  if 65 ≤ c.toNat && c.toNat ≤ 90 then Char.ofNat (c.toNat + 32) else c

/-- Model of Python's word-character class `\w` on `str` restricted to the
character repertoire of these apps: ASCII alphanumerics, underscore, CJK
unified ideographs, enclosed alphanumerics (the circled numerals ①-⑩
among them) and fullwidth alphanumerics — all `\w` in Python; the CJK
punctuation of the inputs (、，：？。【】) lies outside these ranges and is
not a word character. -/
def isWordChar (c : Char) : Bool :=
  (97 ≤ c.toNat && c.toNat ≤ 122) || (65 ≤ c.toNat && c.toNat ≤ 90) ||
  (48 ≤ c.toNat && c.toNat ≤ 57) || c == '_' ||
  (0x4E00 ≤ c.toNat && c.toNat ≤ 0x9FFF) ||
  (0x2460 ≤ c.toNat && c.toNat ≤ 0x24FF) ||
  (0xFF10 ≤ c.toNat && c.toNat ≤ 0xFF19) ||
  (0xFF21 ≤ c.toNat && c.toNat ≤ 0xFF3A) ||
  (0xFF41 ≤ c.toNat && c.toNat ≤ 0xFF5A)

/-- `\b` at position `p` of `s`: the word-character status changes between
`p - 1` and `p` (positions outside the text count as non-word). -/
def wordBoundaryAt (s : List Char) (p : Nat) : Bool :=
  let before := if p == 0 then false else isWordChar (s.getD (p - 1) ' ')
  let here := if p < s.length then isWordChar (s.getD p ' ') else false
  before != here

/-- `re.findall(r"\b([A-G])\b", txt)`: every position holding a letter `A`-`G`
with word boundaries on both sides (for this single-character pattern,
non-overlapping scanning visits every position). -/
def findBoundedLetters (s : List Char) : List Char :=
  (List.range s.length).filterMap fun p =>
    let c := s.getD p ' '
    if (65 ≤ c.toNat && c.toNat ≤ 71) && wordBoundaryAt s p &&
        wordBoundaryAt s (p + 1) then some c
    else none

/-- `re.findall(r"([A-G])", txt)`: every occurrence of a letter `A`-`G`. -/
def findAllLetters (s : List Char) : List Char :=
  s.filter fun c => 65 ≤ c.toNat && c.toNat ≤ 71

/-- `intent_keywords` of `detect_hr_final_selection`. -/
def intent_keywords : List String :=
  ["最终入围", "最终候选", "入围", "入选", "选", "决定", "确认", "确定", "推荐",
   "安排进入", "进入最终面试", "进入面试", "进入最终", "请入围", "请安排"]

/-- `re.search(lead + ".{0,6}(kw1|…|kwn)", s) is not None`: some position
holds `lead`, followed by至多 6 characters none of which is a newline (`.`
does not match `'\n'`), followed by one of the keywords. -/
def dotGapSearch (lead : Char) (kws : List String) (s : List Char) : Bool :=
  (List.range s.length).any fun p =>
    s.getD p ' ' == lead &&
      ((List.range 7).any fun g =>
        let r := s.drop (p + 1)
        ((r.take g).all fun c => c != '\n') &&
          kws.any fun w => w.data.isPrefixOf (r.drop g))

/-- `re.search(kw + "\s*[:：]", s) is not None`. -/
def colonAfterSearch (kw : String) (s : List Char) : Bool :=
  (List.range s.length).any fun p =>
    kw.data.isPrefixOf (s.drop p) &&
      (let r := s.drop (p + kw.length)
       (List.range (r.length + 1)).any fun k =>
         ((r.take k).all isPySpace) &&
           (r.getD k ' ' == ':' || r.getD k ' ' == '：'))

/-- The accumulated `has_intent` flag of `detect_hr_final_selection`: a
keyword occurs as a substring (the keywords are caseless Chinese, so
`k in latest_text or k.lower() in lower` is a keyword test on both the raw
and the lowered text), or one of the three intent regexes matches. -/
def hrHasIntent (latest_text : String) : Bool :=
  let txt := latest_text.data
  let lower := txt.map pyLowerChar
  (intent_keywords.any fun k => containsSeq txt k.data || containsSeq lower k.data) ||
    dotGapSearch '我' ["选择", "决定", "确认", "推荐", "入围", "入选"] txt ||
    colonAfterSearch "最终入围" txt ||
    dotGapSearch '请' ["入围", "安排", "确认", "选择"] txt

/-- The question-form guard of `detect_hr_final_selection`:
`re.search(r"你觉得|哪个更好|哪个更适合|建议哪个|推荐哪个|哪个好", lower)`. -/
def hrQuestionLike (lower : List Char) : Bool :=
  ["你觉得", "哪个更好", "哪个更适合", "建议哪个", "推荐哪个", "哪个好"].any
    fun w => containsSeq lower w.data

/-- Order-preserving deduplication (`seen`/`ordered` loop). -/
def dedupChars : List Char → List Char → List Char
  | _, [] => []
  | seen, c :: rest =>
    if seen.contains c then dedupChars seen rest
    else c :: dedupChars (c :: seen) rest

/-- `detect_hr_final_selection` of `src/prompt_1007/assistant_p.py`: extract
candidate letters `A`-`G` (word-bounded occurrences first, any occurrence as
fallback), and return them deduplicated in first-occurrence order only when
a decision-intent signal is present and at least two letters were found;
interrogative no-intent text returns the empty list. -/
def detect_hr_final_selection (latest_text : String) : List Char :=
  if latest_text.data = [] then []
  else
    let txt_upper := latest_text.data.map pyUpperChar
    let found0 := findBoundedLetters txt_upper
    let found := if found0.isEmpty then findAllLetters txt_upper else found0
    let lower := latest_text.data.map pyLowerChar
    if !hrHasIntent latest_text && hrQuestionLike lower then []
    else
      let ordered := dedupChars [] found
      if hrHasIntent latest_text && 2 ≤ ordered.length then ordered else []

/-- A chat message: role and content. -/
structure Msg where
  role : String
  content : String
deriving DecidableEq

/-- Mutable session state of the ranking-task Streamlit variants: the
`finished` flag, `finished_reason`, and the `messages` list (system prompts
included).  `user_id`, rendering state and the countdown deadline are
external to the detector logic. -/
structure ChatSession where
  finished : Bool
  finishedReason : Option String
  msgs : List Msg
deriving DecidableEq

/-- The completion acknowledgement message of the ranking variants. -/
def done_msg : String := "收到你的最终排序 ✅ 我们的协作到此结束，感谢参与！"

/-- The user-input turn handler of
`src/flight_role_social_prompt_presence/app.py` lines 350-396, as a pure
function of the session and the turn's inputs.  `reply` stands for the
string obtained from the completion service (or the error placeholder text),
which the handler then also runs through `detect_task_completed` with
`by_user=False`. -/
def flightTurnBody (st : ChatSession) (userText reply : String) : ChatSession :=
  let st := { st with msgs := st.msgs ++ [Msg.mk "user" userText] }
  if detect_task_completed userText true then
    { st with finished := true, finishedReason := some "completed",
              msgs := st.msgs ++ [Msg.mk "assistant" done_msg] }
  else
    let st := { st with msgs := st.msgs ++ [Msg.mk "assistant" reply] }
    if detect_task_completed reply false then
      { st with finished := true, finishedReason := some "completed" }
    else st

/-- The user-input turn handler of
`src/crisis_role_task_prompt_absence_success/app.py` lines 303-343: same
shape, but the assistant reply is appended and logged without being run
through `detect_task_completed`. -/
def crisisTurnBody (st : ChatSession) (userText reply : String) : ChatSession :=
  let st := { st with msgs := st.msgs ++ [Msg.mk "user" userText] }
  if detect_task_completed userText true then
    { st with finished := true, finishedReason := some "completed",
              msgs := st.msgs ++ [Msg.mk "assistant" done_msg] }
  else
    { st with msgs := st.msgs ++ [Msg.mk "assistant" reply] }

/-- One full re-render/turn of the flight variant's module-level logic
(lines 333-396): the elapsed-time check may terminate the session first;
then the input is processed only when non-empty and input is not disabled
(`input_disabled` is `finished` here — we model a configured API key).
`timeUp` abstracts the wall-clock countdown comparison. -/
def flightStep (st : ChatSession) (timeUp : Bool) (userText reply : String) :
    ChatSession :=
  let st :=
    if timeUp && !st.finished then
      { st with finished := true, finishedReason := some "time" }
    else st
  if !userText.data.isEmpty && !st.finished then flightTurnBody st userText reply
  else st

/-- Session state of `src/assistant_app/app.py`: stage (0 = awaiting OK,
1-5 = collecting, 99 = finished), the matched-item list, the message log,
and the `time_up` flag. -/
structure AsstSession where
  stage : Nat
  matched : List String
  msgs : List Msg
  timeUp : Bool
deriving DecidableEq

/-- `item_alias` of assistant_app: regex word pattern (its word, the
patterns are all of the form `\bword\b`) to official item name, in dict
order. -/
def item_alias : List (String × String) :=
  [("water", "a bottle of water"),
   ("canvas", "a 20′×20′ piece of canvas"),
   ("map", "a map"),
   ("knife", "a knife"),
   ("compass", "a magnetic compass")]

/-- `re.search(r"\bword\b", s) is not None`: the word occurs somewhere with
word boundaries on both sides. -/
def wordOccurs (w : String) (s : List Char) : Bool :=
  (List.range (s.length + 1)).any fun p =>
    w.data.isPrefixOf (s.drop p) && wordBoundaryAt s p &&
      wordBoundaryAt s (p + w.length)

/-- `first_step_prompt` of assistant_app (content immaterial to the claims). -/
def first_step_prompt : String :=
  "Let’s start by thinking about the most immediate needs that are vital for survival in a desert environment."

/-- `step_prompts` of assistant_app, abridged to their opening words (only
their positions matter to the stage machine). -/
def step_prompts : List String :=
  ["Nice choice! I think you’re right, that’s definitely crucial to survival.",
   "I’d say it’s a smart move—it can really help with survival tasks in a desert setting.",
   "I’m on board with that! It shows you’re approaching the situation with strategy, not just survival in mind.",
   "Great choice! That could definitely make things easier out here."]

/-- `closing` of assistant_app, abridged likewise. -/
def closing : String :=
  "Well done! You’ve completed the ranking and thoughtfully considered all five items."

/-- One full re-render/turn of `src/assistant_app/app.py`: the elapsed-time
refresh check, the disabled-input gate (`stage == 99 or time_up`), the
defensive `st.stop()` on `time_up`, the stage-0 OK gate, and the
item-matching stage logic.  On the fifth matched item the script sets
`stage = 99` and calls `st.rerun()`, which raises, so the following
`stage += 1` is skipped. -/
def asstStep (st : AsstSession) (elapsedOver : Bool) (userInput : String) :
    AsstSession :=
  let st :=
    if !st.timeUp && st.stage != 99 && elapsedOver then { st with timeUp := true }
    else st
  let disabled := st.stage == 99 || st.timeUp
  if userInput.data.isEmpty || disabled then st
  else
    let st := { st with msgs := st.msgs ++ [Msg.mk "user" userInput] }
    let lowered := (pyStrip userInput.data).map pyLowerChar
    if st.timeUp then st
    else if st.stage == 0 then
      if lowered = "ok".data then
        { st with msgs := st.msgs ++ [Msg.mk "assistant" first_step_prompt], stage := 1 }
      else
        { st with msgs := st.msgs ++ [Msg.mk "assistant" "Please input \"OK\" to begin."] }
    else
      match item_alias.find? fun pr => wordOccurs pr.1 lowered with
      | some pr =>
        if !st.matched.contains pr.2 && st.stage ≤ 5 then
          let matched2 := st.matched ++ [pr.2]
          if matched2.length - 1 < 4 then
            { st with matched := matched2,
                      msgs := st.msgs ++ [Msg.mk "assistant" (step_prompts.getD (matched2.length - 1) "")],
                      stage := st.stage + 1 }
          else
            { st with matched := matched2,
                      msgs := st.msgs ++ [Msg.mk "assistant" closing], stage := 99 }
        else
          { st with msgs := st.msgs ++
              [Msg.mk "assistant"
                (if st.stage < 99 then
                  "Please select the provided item or choose an item that has not been selected."
                else "Chat has ended.")] }
      | none =>
        { st with msgs := st.msgs ++
            [Msg.mk "assistant"
              (if st.stage < 99 then
                "Please select the provided item or choose an item that has not been selected."
              else "Chat has ended.")] }

/-- The canonical item identifiers, in dict order. -/
def itemKeys : List String := ITEM_ALIASES.map Prod.fst

/-- The digit text of an ordinal 1-10 as written in a numbered list. -/
def numChars (n : Nat) : List Char :=
  if n = 10 then ['1', '0'] else [Char.ofNat (48 + n)]

/-- One line `"<n>. <alias>"` of a numbered ranking list. -/
def renderLine (p : Nat × String) : List Char :=
  numChars p.1 ++ '.' :: ' ' :: p.2.data

/-- A numbered ranking list written one item per line, lines separated by
newlines: `"n1. a1\nn2. a2\n…"`. -/
def renderRanked : List (Nat × String) → List Char
  | [] => []
  | [p] => renderLine p
  | p :: ps => renderLine p ++ '\n' :: renderRanked ps

/-- The side conditions a rendered line's pair satisfies when its alias is
drawn from the alias table: ordinal in 1..10, alias non-empty and free of
whitespace and newlines. -/
def lineOK (p : Nat × String) : Prop :=
  1 ≤ p.1 ∧ p.1 ≤ 10 ∧ p.2.data ≠ [] ∧
    ∀ c ∈ p.2.data, isPySpace c = false ∧ c ≠ '\n'

theorem takeWhile_append_of_all {p : Char → Bool} {l1 l2 : List Char}
    (h : ∀ c ∈ l1, p c = true) :
    (l1 ++ l2).takeWhile p = l1 ++ l2.takeWhile p := by
  induction l1 with
  | nil => simp
  | cons c t ih =>
    simp [List.takeWhile_cons, h c (by simp), ih fun d hd => h d (by simp [hd])]

theorem dropWhile_append_of_all {p : Char → Bool} {l1 l2 : List Char}
    (h : ∀ c ∈ l1, p c = true) :
    (l1 ++ l2).dropWhile p = l2.dropWhile p := by
  induction l1 with
  | nil => simp
  | cons c t ih =>
    simp [List.dropWhile_cons, h c (by simp), ih fun d hd => h d (by simp [hd])]

theorem findSome?_eq_some_exists {α β : Type} {f : α → Option β} {l : List α}
    {v : β} (h : l.findSome? f = some v) : ∃ p ∈ l, f p = some v := by
  induction l with
  | nil => simp [List.findSome?] at h
  | cons x xs ih =>
    rw [List.findSome?] at h
    cases hx : f x with
    | some w => rw [hx] at h; simp at h; exact ⟨x, by simp, by rw [hx, h]⟩
    | none =>
      rw [hx] at h; simp at h
      obtain ⟨p, hp, hf⟩ := ih h
      exact ⟨p, by simp [hp], hf⟩

theorem circledVal_bound {c : Char} {n : Nat} (h : circledVal c = some n) :
    1 ≤ n ∧ n ≤ 10 := by
  unfold circledVal at h
  cases hf : CIRCLED.find? fun p => p.1 == c with
  | none => rw [hf] at h; simp at h
  | some q =>
    rw [hf] at h
    simp at h
    have hm : q ∈ CIRCLED := List.mem_of_find?_eq_some hf
    have hall : ∀ q ∈ CIRCLED, 1 ≤ q.2 ∧ q.2 ≤ 10 := by decide
    have := hall q hm
    omega

theorem tryOrd_bound {s : List Char}
    {k : Nat → List Char → Option (Nat × List Char × List Char)}
    {x : Nat × List Char × List Char} (h : tryOrd s k = some x) :
    ∃ n r, (1 ≤ n ∧ n ≤ 10) ∧ k n r = some x := by
  unfold tryOrd at h
  split at h
  · exact absurd h (by simp)
  next c r =>
    split at h
    · split at h
      next r2 =>
        split at h
        next y hk => exact ⟨10, r2, by omega, by rw [hk, h]⟩
        next hk => exact ⟨1, '0' :: r2, by omega, h⟩
      next hne => exact ⟨1, r, by omega, h⟩
    · split at h
      next hdig => exact ⟨c.toNat - 48, r, by simp at hdig; omega, h⟩
      next hdig =>
        split at h
        next n hn => exact ⟨n, r, circledVal_bound hn, h⟩
        · exact absurd h (by simp)

theorem matchA_bound {s : List Char} {n : Nat} {b rest : List Char}
    (h : matchA s = some (n, b, rest)) : 1 ≤ n ∧ n ≤ 10 := by
  unfold matchA at h
  obtain ⟨m, r, hm, hk⟩ := tryOrd_bound h
  have : m = n := by
    split at hk
    · cases htb : tryBody stopA ([] : List Char) with
      | none => rw [htb] at hk; simp at hk
      | some p => rw [htb] at hk; simp at hk; omega
    next c r2 =>
      split at hk
      · split at hk
        next p hp => simp at hk; omega
        next hp =>
          cases htb : tryBody stopA (c :: r2) with
          | none => rw [htb] at hk; simp at hk
          | some p => rw [htb] at hk; simp at hk; omega
      · cases htb : tryBody stopA (c :: r2) with
        | none => rw [htb] at hk; simp at hk
        | some p => rw [htb] at hk; simp at hk; omega
  omega

theorem matchBCore_bound {s : List Char} {n : Nat} {b rest : List Char}
    (h : matchBCore s = some (n, b, rest)) : 1 ≤ n ∧ n ≤ 10 := by
  unfold matchBCore at h
  obtain ⟨m, r, hm, hk⟩ := tryOrd_bound h
  have : m = n := by
    split at hk
    · simp at hk
    next c r2 =>
      split at hk
      · cases htb : tryBody stopB r2 with
        | none => rw [htb] at hk; simp at hk
        | some p => rw [htb] at hk; simp at hk; omega
      · simp at hk
  omega

theorem scanAGo_bound {fuel : Nat} {s : List Char} {n : Nat} {b : List Char}
    (h : (n, b) ∈ scanAGo fuel s) : 1 ≤ n ∧ n ≤ 10 := by
  induction fuel generalizing s with
  | zero => simp [scanAGo] at h
  | succ fuel ih =>
    rw [scanAGo] at h
    split at h
    next m b2 rest hm =>
      rcases List.mem_cons.1 h with he | hmem
      · obtain ⟨h1, h2⟩ := Prod.mk.injEq .. ▸ he
        exact h1 ▸ matchA_bound hm
      · split at hmem
        · exact ih hmem
        · simp at hmem
    next hm =>
      split at h
      · exact ih h
      · simp at h

theorem scanBGo_bound {fuel : Nat} {s : List Char} {atStart : Bool} {n : Nat}
    {b : List Char} (h : (n, b) ∈ scanBGo fuel s atStart) : 1 ≤ n ∧ n ≤ 10 := by
  induction fuel generalizing s atStart with
  | zero => simp [scanBGo] at h
  | succ fuel ih =>
    simp only [scanBGo] at h
    have key : ∀ (t : List Char) (aS : Bool) (y : Nat × List Char × List Char),
        (match (if aS then matchBCore t else none) with
         | some x => some x
         | none =>
           match t with
           | c :: r => if isPySpace c then matchBCore r else none
           | [] => none) = some y → ∃ u, matchBCore u = some y := by
      intro t aS y hy
      split at hy
      next x hx =>
        injection hy with hxy
        subst hxy
        split at hx
        · exact ⟨t, hx⟩
        · exact absurd hx (by simp)
      next hx =>
        split at hy
        next c r =>
          split at hy
          · exact ⟨r, hy⟩
          · exact absurd hy (by simp)
        · exact absurd hy (by simp)
    split at h
    next m b2 rest hm =>
      rcases List.mem_cons.1 h with he | hmem
      · obtain ⟨u, hu⟩ := key s atStart _ hm
        have h1 : n = m := congrArg Prod.fst he
        exact h1 ▸ matchBCore_bound hu
      · exact ih hmem
    next hm =>
      split at h
      · exact ih h
      · simp at h

theorem accumulate_nums_mem {items : List (Nat × List Char)} {m : Nat}
    (h : m ∈ (accumulate items).1) : ∃ b, (m, b) ∈ items := by
  induction items with
  | nil => simp [accumulate] at h
  | cons p rest ih =>
    obtain ⟨n, b⟩ := p
    rw [accumulate] at h
    split at h
    next key hkey =>
      rcases Finset.mem_insert.1 h with he | hmem
      · exact ⟨b, by simp [he]⟩
      · obtain ⟨b2, hb2⟩ := ih hmem
        exact ⟨b2, by simp [hb2]⟩
    next hkey =>
      obtain ⟨b2, hb2⟩ := ih h
      exact ⟨b2, by simp [hb2]⟩

theorem accumulate_goods_mem {items : List (Nat × List Char)} {k : String}
    (h : k ∈ (accumulate items).2) :
    ∃ n b, (n, b) ∈ items ∧ _normalize_item b = some k := by
  induction items with
  | nil => simp [accumulate] at h
  | cons p rest ih =>
    obtain ⟨n, b⟩ := p
    rw [accumulate] at h
    split at h
    next key hkey =>
      rcases Finset.mem_insert.1 h with he | hmem
      · exact ⟨n, b, by simp, he ▸ hkey⟩
      · obtain ⟨n2, b2, hb2, hn2⟩ := ih hmem
        exact ⟨n2, b2, by simp [hb2], hn2⟩
    next hkey =>
      obtain ⟨n2, b2, hb2, hn2⟩ := ih h
      exact ⟨n2, b2, by simp [hb2], hn2⟩

theorem accumulate_mem_of_resolved {items : List (Nat × List Char)} {n : Nat}
    {b : List Char} {k : String} (hmem : (n, b) ∈ items)
    (hres : _normalize_item b = some k) :
    n ∈ (accumulate items).1 ∧ k ∈ (accumulate items).2 := by
  induction items with
  | nil => simp at hmem
  | cons p rest ih =>
    obtain ⟨m, c⟩ := p
    rcases List.mem_cons.1 hmem with he | hmem2
    · obtain ⟨h1, h2⟩ := Prod.mk.injEq .. ▸ he
      subst h1; subst h2
      rw [accumulate, hres]
      exact ⟨Finset.mem_insert_self .., Finset.mem_insert_self ..⟩
    · have := ih hmem2
      rw [accumulate]
      split
      next key hkey =>
        exact ⟨Finset.mem_insert_of_mem this.1, Finset.mem_insert_of_mem this.2⟩
      next hkey => exact this

theorem normalize_mem_keys {b : List Char} {k : String}
    (h : _normalize_item b = some k) : k ∈ itemKeys := by
  unfold _normalize_item at h
  obtain ⟨p, hp, hf⟩ := findSome?_eq_some_exists h
  have : p.1 = k := by
    split at hf
    · injection hf
    · exact absurd hf (by simp)
  exact this ▸ List.mem_map_of_mem Prod.fst hp

theorem rankedNums_subset_Icc (t : String) :
    rankedNums t ⊆ Finset.Icc 1 10 := by
  intro m hm
  unfold rankedNums _parse_ranked_items at hm
  split at hm
  · simp at hm
  · obtain ⟨b, hb⟩ := accumulate_nums_mem hm
    rcases List.mem_append.1 hb with hA | hB
    · have := scanAGo_bound hA
      simp [Finset.mem_Icc]; omega
    · have := scanBGo_bound hB
      simp [Finset.mem_Icc]; omega

theorem rankedGoods_subset_keys (t : String) :
    ∀ k ∈ rankedGoods t, k ∈ itemKeys := by
  intro k hk
  unfold rankedGoods _parse_ranked_items at hk
  split at hk
  · simp at hk
  · obtain ⟨n, b, _, hres⟩ := accumulate_goods_mem hk
    exact normalize_mem_keys hres

theorem rankedComplete_eq (t : String) :
    rankedComplete t =
      (((rankedNums t).card == 10 &&
        ((List.range' 1 10).all fun n => decide (n ∈ rankedNums t))) &&
       ((rankedGoods t).card == 10)) := rfl

/-- C10: every ordinal the Ranked-List Parser ever returns lies in 1..10, so
a claimed-ordinal set of cardinality 10 is necessarily exactly {1,…,10};
consequently `detect_task_completed`'s explicit membership check
`all(n in nums for n in range(1, 11))` is redundant given the two
cardinality checks. -/
theorem ranked_ordinal_range_invariant :
    ∀ t : String,
      rankedNums t ⊆ Finset.Icc 1 10 ∧
      ((rankedNums t).card = 10 ↔ rankedNums t = Finset.Icc 1 10) ∧
      rankedComplete t =
        ((rankedNums t).card == 10 && (rankedGoods t).card == 10) := by
  intro t
  have hsub := rankedNums_subset_Icc t
  have hiff : (rankedNums t).card = 10 ↔ rankedNums t = Finset.Icc 1 10 := by
    constructor
    · intro hc
      refine Finset.eq_of_subset_of_card_le hsub ?_
      have : (Finset.Icc 1 10 : Finset Nat).card = 10 := by decide
      omega
    · intro he
      rw [he]
      decide
  refine ⟨hsub, hiff, ?_⟩
  by_cases hc : (rankedNums t).card = 10
  · have heq := hiff.1 hc
    have hall : ((List.range' 1 10).all fun n =>
        decide (n ∈ rankedNums t)) = true := by
      rw [List.all_eq_true]
      intro n hn
      rw [decide_eq_true_eq]
      have hr : 1 ≤ n ∧ n < 1 + 10 := List.mem_range'_1.1 hn
      have : n ∈ Finset.Icc 1 10 := Finset.mem_Icc.2 (by omega)
      exact heq ▸ this
    rw [rankedComplete_eq, hall, Bool.and_true]
  · have hbeq : ((rankedNums t).card == 10) = false := by
      simp [hc]
    rw [rankedComplete_eq, hbeq]
    simp

/-- Witness for C10 at a concrete complete ranking: the cardinality check
alone already forces the ordinal set to be exactly {1,…,10}. -/
theorem ranked_ordinal_range_invariant_witness :
    rankedNums "1. 打火机\n2. 压缩饼干\n3. 淡水\n4. 信号镜\n5. 鲨鱼驱赶剂\n6. 尼龙绳\n7. 塑料布\n8. 匕首\n9. 急救包\n10. 渔网" = Finset.Icc 1 10 :=
  (ranked_ordinal_range_invariant _).2.1.mp (by decide)

/-- C2: whenever the resolved-item set of the Ranked-List Parser has fewer
than 10 elements (as it does when two ordinals resolve to the same item)
and the text does not mention 10 distinct items in free order either,
`detect_task_completed` is false regardless of `by_user`. -/
theorem detect_false_of_item_collision :
    ∀ (t : String) (u : Bool),
      (rankedGoods t).card < 10 →
      (_parse_unordered_items_in_order t).length < 10 →
      detect_task_completed t u = false := by
  intro t u hg hu
  unfold detect_task_completed
  have h1 : rankedComplete t = false := by
    have hb : ((rankedGoods t).card == 10) = false := by
      have : (rankedGoods t).card ≠ 10 := by omega
      simpa using this
    rw [rankedComplete_eq, hb]
    simp
  have h2 : ((_parse_unordered_items_in_order t).length == 10) = false := by
    have : (_parse_unordered_items_in_order t).length ≠ 10 := by omega
    simpa using this
  rw [h1, h2]
  simp

/-- Witness for C2: a text with 10 distinct ordinals 1..10 in which ordinals
1 and 2 both resolve to 打火机 (so only 9 distinct items appear): the parser
sees all 10 ordinals but the detector still reports incomplete for both
values of `by_user`. -/
theorem detect_false_of_item_collision_witness :
    (rankedNums "1. 打火机\n2. 打火机\n3. 淡水\n4. 信号镜\n5. 鲨鱼驱赶剂\n6. 尼龙绳\n7. 塑料布\n8. 匕首\n9. 急救包\n10. 渔网").card = 10 ∧
    detect_task_completed "1. 打火机\n2. 打火机\n3. 淡水\n4. 信号镜\n5. 鲨鱼驱赶剂\n6. 尼龙绳\n7. 塑料布\n8. 匕首\n9. 急救包\n10. 渔网" true = false ∧
    detect_task_completed "1. 打火机\n2. 打火机\n3. 淡水\n4. 信号镜\n5. 鲨鱼驱赶剂\n6. 尼龙绳\n7. 塑料布\n8. 匕首\n9. 急救包\n10. 渔网" false = false :=
  ⟨by decide,
   detect_false_of_item_collision _ true (by decide) (by decide),
   detect_false_of_item_collision _ false (by decide) (by decide)⟩

/-- C9: the detectors are total functions returning normal values: on every
input (the empty string included) `detect_task_completed` yields a boolean
and `detect_hr_final_selection` a list, empty texts yield the incomplete
verdict, the shortlist detector returns either nothing or an actionable
list of at least two letters, and a completion verdict is only ever given
on the strength of a full ranked parse or (for user text) a full unordered
parse — partial parses yield `false`.  (Python-level exceptions have no
counterpart in this embedding; "never raises" is reflected by the functions
being total.) -/
theorem detectors_total_and_conservative :
    ∀ (t : String) (u : Bool),
      (detect_task_completed t u = true ∨ detect_task_completed t u = false) ∧
      detect_task_completed "" u = false ∧
      detect_hr_final_selection "" = [] ∧
      (detect_hr_final_selection t = [] ∨
        2 ≤ (detect_hr_final_selection t).length) ∧
      (detect_task_completed t u = true →
        rankedComplete t = true ∨
          (u = true ∧ (_parse_unordered_items_in_order t).length = 10)) := by
  intro t u
  refine ⟨?_, ?_, by decide, ?_, ?_⟩
  · cases detect_task_completed t u
    · right; rfl
    · left; rfl
  · cases u <;> decide
  · simp only [detect_hr_final_selection]
    repeat' split
    all_goals
      first
        | exact Or.inl rfl
        | (rename_i hcond
           exact Or.inr (of_decide_eq_true (Bool.and_eq_true .. ▸ hcond).2))
  · intro h
    unfold detect_task_completed at h
    rcases Bool.or_eq_true .. ▸ h with h1 | h2
    · exact Or.inl h1
    · have := Bool.and_eq_true .. ▸ h2
      exact Or.inr ⟨this.1, by simpa using this.2⟩

/-- Witness for C9's conservativity clause at a concrete user text that
completes in free order: the verdict is backed by a full unordered parse. -/
theorem detectors_total_and_conservative_witness :
    rankedComplete "打火机 压缩饼干 淡水 信号镜 鲨鱼驱赶剂 尼龙绳 塑料布 匕首 急救包 渔网" = true ∨
      (true = true ∧
        (_parse_unordered_items_in_order "打火机 压缩饼干 淡水 信号镜 鲨鱼驱赶剂 尼龙绳 塑料布 匕首 急救包 渔网").length = 10) :=
  (detectors_total_and_conservative _ true).2.2.2.2 (by decide)

/-- Counterexample to C6 as stated: a user-authored text whose claimed
ordinals are 2..10 (ordinal 1 is missing; the nine present ordinals resolve
to nine distinct items) but which also mentions the tenth item 打火机
without a number — `detect_task_completed` with `by_user=True` still
returns true through the free-order rule. -/
theorem missing_ordinal_still_completes_cex :
    1 ∉ rankedNums "2. 压缩饼干\n3. 淡水\n4. 信号镜\n5. 鲨鱼驱赶剂\n6. 尼龙绳\n7. 塑料布\n8. 匕首\n9. 急救包\n10. 渔网\n打火机" ∧
    (rankedNums "2. 压缩饼干\n3. 淡水\n4. 信号镜\n5. 鲨鱼驱赶剂\n6. 尼龙绳\n7. 塑料布\n8. 匕首\n9. 急救包\n10. 渔网\n打火机").card = 9 ∧
    (rankedGoods "2. 压缩饼干\n3. 淡水\n4. 信号镜\n5. 鲨鱼驱赶剂\n6. 尼龙绳\n7. 塑料布\n8. 匕首\n9. 急救包\n10. 渔网\n打火机").card = 9 ∧
    detect_task_completed "2. 压缩饼干\n3. 淡水\n4. 信号镜\n5. 鲨鱼驱赶剂\n6. 尼龙绳\n7. 塑料布\n8. 匕首\n9. 急救包\n10. 渔网\n打火机" true = true := by
  refine ⟨by decide, by decide, by decide, by decide⟩

/-- C6 amended: for every text whose claimed-ordinal set misses some
`k ∈ 1..10`, `detect_task_completed` returns false — for assistant-authored
text (`by_user=false`) unconditionally, and for user-authored text provided
the free-order rule does not fire (the unordered parse does not yield 10
items); without that proviso the user-side free-order rule can still
complete, as the counterexample shows. -/
theorem detect_false_of_missing_ordinal :
    ∀ (t : String) (u : Bool) (k : Nat),
      1 ≤ k → k ≤ 10 → k ∉ rankedNums t →
      (u = true → (_parse_unordered_items_in_order t).length ≠ 10) →
      detect_task_completed t u = false := by
  intro t u k hk1 hk10 hknot hu
  unfold detect_task_completed
  have hall : ((List.range' 1 10).all fun n => decide (n ∈ rankedNums t)) = false := by
    rcases hb : (List.range' 1 10).all fun n => decide (n ∈ rankedNums t) with _ | _
    · rfl
    · exfalso
      have := List.all_eq_true.1 hb k (List.mem_range'_1.2 (by omega))
      exact hknot (of_decide_eq_true this)
  have h1 : rankedComplete t = false := by
    rw [rankedComplete_eq, hall]
    simp
  rw [h1]
  cases u with
  | false => simp
  | true =>
    have : ((_parse_unordered_items_in_order t).length == 10) = false := by
      simpa using hu rfl
    rw [this]
    simp

/-- Witness for the amended C6 at a concrete text carrying only ordinal 1:
ordinal 2 is missing and the detector reports incomplete. -/
theorem detect_false_of_missing_ordinal_witness :
    detect_task_completed "1. 打火机" false = false :=
  detect_false_of_missing_ordinal "1. 打火机" false 2 (by omega) (by omega)
    (by decide) (by intro h; cases h)

/-- C3: the shortlist detector never acts without a decision-intent signal
(any text without one yields the empty list — in particular the purely
interrogative "A还是B哪个更好？"), while the same two letters accompanied
by the explicit decision phrase 最终入围 yield `["A", "B"]` in
first-occurrence order. -/
theorem hr_question_vs_decision :
    (∀ t : String, hrHasIntent t = false → detect_hr_final_selection t = []) ∧
    detect_hr_final_selection "A还是B哪个更好？" = [] ∧
    detect_hr_final_selection "最终入围：A、B" = ['A', 'B'] := by
  refine ⟨?_, by decide, by decide⟩
  intro t h
  simp only [detect_hr_final_selection, h, Bool.false_and, Bool.not_false,
    Bool.true_and]
  split
  · rfl
  · split
    · rfl
    · simp

/-- Witness for C3's no-intent clause at another interrogative text. -/
theorem hr_question_vs_decision_witness :
    detect_hr_final_selection "你觉得C和D哪个更适合？" = [] :=
  hr_question_vs_decision.1 "你觉得C和D哪个更适合？" (by decide)

theorem matchAliasAt_sound {s : List Char} {pos : Nat} {a : String}
    (h : matchAliasAt s pos = some a) :
    a ∈ sortedAliases ∧ a.data.isPrefixOf (s.drop pos) = true := by
  unfold matchAliasAt at h
  refine ⟨List.mem_of_find?_eq_some h, ?_⟩
  have hp := List.find?_some (p := fun (x : String) => x.data.isPrefixOf (List.drop pos s)) h
  simpa using hp

theorem searchAliasFrom_sound {s : List Char} {i start : Nat} {a : String}
    (h : searchAliasFrom s i = some (start, a)) :
    matchAliasAt s start = some a := by
  unfold searchAliasFrom at h
  obtain ⟨p, hp, hf⟩ := findSome?_eq_some_exists h
  cases hm : matchAliasAt s p with
  | none => rw [hm] at hf; simp at hf
  | some b =>
    rw [hm] at hf
    simp at hf
    obtain ⟨h1, h2⟩ := hf
    rw [← h1, ← h2] at *
    exact hm

theorem unorderedGo_sound {fuel : Nat} {s : List Char} {i : Nat}
    {seen ordered : List String} {k : String}
    (h : k ∈ unorderedGo fuel s i seen ordered) :
    k ∈ ordered ∨
      ∃ start a, alias2key a = some k ∧
        a.data.isPrefixOf (s.drop start) = true ∧
        boundaryOk s start (start + a.length) = true := by
  induction fuel generalizing i seen ordered with
  | zero => exact Or.inl (by simpa [unorderedGo] using h)
  | succ fuel ih =>
    rw [unorderedGo] at h
    split at h
    · exact Or.inl h
    next start a hsearch =>
      have hma := searchAliasFrom_sound hsearch
      have hpre := (matchAliasAt_sound hma).2
      split at h
      next hbound =>
        split at h
        next key hkey =>
          split at h
          · rcases ih h with hin | hex
            · exact Or.inl hin
            · exact Or.inr hex
          · split at h
            · rcases List.mem_append.1 h with hin | hone
              · exact Or.inl hin
              · have : k = key := by simpa using hone
                exact Or.inr ⟨start, a, this ▸ hkey, hpre, hbound⟩
            · rcases ih h with hin | hex
              · rcases List.mem_append.1 hin with hin2 | hone
                · exact Or.inl hin2
                · have : k = key := by simpa using hone
                  exact Or.inr ⟨start, a, this ▸ hkey, hpre, hbound⟩
              · exact Or.inr hex
        · rcases ih h with hin | hex
          · exact Or.inl hin
          · exact Or.inr hex
      · rcases ih h with hin | hex
        · exact Or.inl hin
        · exact Or.inr hex

/-- C4: an item enters the Unordered-Mention Parser's output only on the
strength of an alias occurrence whose adjacent characters on both sides are
separators or the text boundary — an alias occurrence embedded inside a
longer word is never counted, as the concrete 薪水 example (水 preceded by
the non-separator 薪) illustrates. -/
theorem unordered_requires_boundaries :
    (∀ (t : String) (k : String), k ∈ _parse_unordered_items_in_order t →
      ∃ start a, alias2key a = some k ∧
        a.data.isPrefixOf (t.data.drop start) = true ∧
        boundaryOk t.data start (start + a.length) = true) ∧
    _parse_unordered_items_in_order "薪水" = [] := by
  refine ⟨?_, by decide⟩
  intro t k h
  unfold _parse_unordered_items_in_order at h
  split at h
  · simp at h
  · rcases unorderedGo_sound h with hin | hex
    · simp at hin
    · exact hex

/-- Witness for C4 at the text 淡水, whose parse output 淡水 is backed by a
boundary-valid occurrence. -/
theorem unordered_requires_boundaries_witness :
    ∃ start a, alias2key a = some "淡水" ∧
      a.data.isPrefixOf (("淡水" : String).data.drop start) = true ∧
      boundaryOk ("淡水" : String).data start (start + a.length) = true :=
  unordered_requires_boundaries.1 "淡水" "淡水" (by decide)

theorem find?_sorted_longest {l : List String} {p : String → Bool} {a : String}
    (hs : l.Pairwise fun x y => y.length ≤ x.length)
    (h : l.find? p = some a) : ∀ b ∈ l, p b = true → b.length ≤ a.length := by
  induction l with
  | nil => simp at h
  | cons x xs ih =>
    by_cases hp : p x
    · rw [List.find?_cons_of_pos _ hp] at h
      injection h with h
      subst h
      intro b hb hpb
      rcases List.mem_cons.1 hb with he | hmem
      · exact he ▸ le_refl _
      · exact (List.pairwise_cons.1 hs).1 b hmem
    · rw [List.find?_cons_of_neg _ hp] at h
      intro b hb hpb
      rcases List.mem_cons.1 hb with he | hmem
      · exact absurd (he ▸ hpb) hp
      · exact ih (List.pairwise_cons.1 hs).2 h b hmem hpb

/-- C5: whenever the Unordered-Mention Parser matches an alias at a
position, that alias is the longest alias of the table occurring there
(longest-alias-first alternation), so an occurrence of a longer alias that
embeds a shorter alias is resolved through the longer one; concretely, in
淡水 the two-character alias 淡水 wins and the output is its item. -/
theorem longest_alias_precedence :
    (∀ (s : List Char) (i start : Nat) (a : String),
      searchAliasFrom s i = some (start, a) →
      ∀ b ∈ sortedAliases, b.data.isPrefixOf (s.drop start) = true →
        b.length ≤ a.length) ∧
    matchAliasAt ("淡水" : String).data 0 = some "淡水" ∧
    _parse_unordered_items_in_order "淡水" = ["淡水"] := by
  refine ⟨?_, by decide, by decide⟩
  intro s i start a hsearch b hb hpre
  have hma := searchAliasFrom_sound hsearch
  have hsorted : sortedAliases.Pairwise fun x y => y.length ≤ x.length := by decide
  exact find?_sorted_longest hsorted hma b hb hpre

/-- Witness for C5 at the text 绳子: the parser matches 绳子 at position 0,
and the competing shorter alias 绳 that also occurs there is not chosen. -/
theorem longest_alias_precedence_witness :
    ("绳" : String).length ≤ ("绳子" : String).length :=
  longest_alias_precedence.1 ("绳子" : String).data 0 0 "绳子" (by decide)
    "绳" (by decide) (by decide)

theorem alias_table_ok : ∀ a ∈ all_aliases,
    a.data ≠ [] ∧ ∀ c ∈ a.data, isPySpace c = false ∧ c ≠ '\n' := by decide

theorem normalize_alias : ∀ a ∈ all_aliases,
    _normalize_item a.data = alias2key a ∧ (alias2key a).isSome = true := by
  decide

theorem alias2key_mem_keys : ∀ a ∈ all_aliases, ∀ k,
    alias2key a = some k → k ∈ itemKeys := by decide

theorem tryOrd_numChars {n : Nat} {r' : List Char}
    {k : Nat → List Char → Option (Nat × List Char × List Char)}
    {x : Nat × List Char × List Char}
    (h1 : 1 ≤ n) (h10 : n ≤ 10) (hk : k n ('.' :: r') = some x) :
    tryOrd (numChars n ++ '.' :: r') k = some x := by
  interval_cases n <;> simp [tryOrd, numChars, hk]

theorem dropWhile_cons_not_space {c : Char} {l : List Char}
    (h : isPySpace c = false) : (c :: l).dropWhile isPySpace = c :: l := by
  simp [List.dropWhile_cons, h]

theorem tryBody_clean {a r2 : List Char} (ha : a ≠ [])
    (hc : ∀ c ∈ a, isPySpace c = false ∧ c ≠ '\n')
    (hr : r2 = [] ∨ ∃ r', r2 = '\n' :: r') :
    tryBody stopA (' ' :: (a ++ r2)) = some (a, r2) := by
  obtain ⟨c0, t, rfl⟩ : ∃ c0 t, a = c0 :: t := by
    cases a with
    | nil => exact absurd rfl ha
    | cons c0 t => exact ⟨c0, t, rfl⟩
  have hc0 := hc c0 (by simp)
  unfold tryBody
  have hsp : isPySpace ' ' = true := by decide
  rw [List.takeWhile_cons, List.dropWhile_cons]
  simp only [hsp, if_true]
  rw [List.cons_append, List.takeWhile_cons, List.dropWhile_cons]
  simp only [hc0.1, Bool.false_eq_true, if_false]
  simp only [List.reverse_cons, List.reverse_nil, List.nil_append]
  rw [backtrackBody]
  rw [bodyFrom]
  have hstop : stopA c0 = false := by
    simp [stopA, hc0.2]
  simp only [hstop, Bool.false_eq_true, if_false]
  have htake : (c0 :: (t ++ r2)).takeWhile (fun d => !stopA d) = c0 :: t := by
    rw [← List.cons_append,
      takeWhile_append_of_all (fun c hcm => by simp [stopA, (hc c hcm).2])]
    rcases hr with rfl | ⟨r', rfl⟩
    · simp
    · simp [stopA]
  have hdrop : (c0 :: (t ++ r2)).dropWhile (fun d => !stopA d) = r2 := by
    rw [← List.cons_append,
      dropWhile_append_of_all (fun c hcm => by simp [stopA, (hc c hcm).2])]
    rcases hr with rfl | ⟨r', rfl⟩
    · simp
    · simp [stopA]
  rw [htake, hdrop]

theorem matchA_line {n : Nat} {a : String} {r2 : List Char}
    (h1 : 1 ≤ n) (h10 : n ≤ 10) (ha : a.data ≠ [])
    (hc : ∀ c ∈ a.data, isPySpace c = false ∧ c ≠ '\n')
    (hr : r2 = [] ∨ ∃ r', r2 = '\n' :: r') :
    matchA (numChars n ++ '.' :: ' ' :: (a.data ++ r2)) = some (n, a.data, r2) := by
  unfold matchA
  have hdw : (numChars n ++ '.' :: ' ' :: (a.data ++ r2)).dropWhile isPySpace =
      numChars n ++ '.' :: ' ' :: (a.data ++ r2) := by
    interval_cases n <;> simp only [numChars, List.cons_append, List.nil_append] <;>
      exact dropWhile_cons_not_space (by decide)
  rw [hdw]
  refine tryOrd_numChars h1 h10 ?_
  have hdelim : isDelim '.' = true := by decide
  simp only [hdelim, if_true]
  rw [tryBody_clean ha hc hr]

theorem numChars_ne_nil (n : Nat) : numChars n ≠ [] := by
  unfold numChars
  split <;> simp

theorem scanAGo_render :
    ∀ (L : List (Nat × String)) (fuel : Nat), (∀ p ∈ L, lineOK p) →
      (renderRanked L).length < fuel →
      scanAGo fuel (renderRanked L) = L.map fun p => (p.1, p.2.data) := by
  intro L
  induction L with
  | nil =>
    intro fuel _ hf
    cases fuel with
    | zero => omega
    | succ f =>
      rw [renderRanked, scanAGo]
      have hm : matchA [] = none := by rfl
      rw [hm]
      simp
  | cons p L' ih =>
    intro fuel hok hf
    cases fuel with
    | zero => omega
    | succ f =>
      obtain ⟨h1, h10, ha, hc⟩ := hok p (by simp)
      cases L' with
      | nil =>
        have hshape : renderRanked [p] =
            numChars p.1 ++ '.' :: ' ' :: (p.2.data ++ []) := by
          simp [renderRanked, renderLine]
        rw [hshape, scanAGo, matchA_line h1 h10 ha hc (Or.inl rfl)]
        simp
      | cons q L'' =>
        have hshape : renderRanked (p :: q :: L'') =
            numChars p.1 ++ '.' :: ' ' ::
              (p.2.data ++ ('\n' :: renderRanked (q :: L''))) := by
          simp [renderRanked, renderLine]
        have hlen : (renderRanked (q :: L'')).length < f := by
          rw [hshape] at hf
          simp [List.length_append] at hf
          omega
        rw [hshape, scanAGo, matchA_line h1 h10 ha hc (Or.inr ⟨_, rfl⟩)]
        have := ih f (fun r hr => hok r (by simp [hr])) hlen
        simp [this]

theorem scanA_render {L : List (Nat × String)} (hok : ∀ p ∈ L, lineOK p) :
    scanA (renderRanked L) = L.map fun p => (p.1, p.2.data) :=
  scanAGo_render L _ hok (by omega)

theorem renderRanked_ne_nil {p : Nat × String} {L : List (Nat × String)} :
    renderRanked (p :: L) ≠ [] := by
  have := numChars_ne_nil p.1
  cases L with
  | nil =>
    simp only [renderRanked, renderLine]
    intro h
    rcases List.append_eq_nil.1 h with ⟨h1, _⟩
    exact this h1
  | cons q L' =>
    simp only [renderRanked, renderLine]
    intro h
    rcases List.append_eq_nil.1 h with ⟨h1, _⟩
    rcases List.append_eq_nil.1 h1 with ⟨h2, _⟩
    exact this h2

/-- C1: for every assignment of the ordinals 1..10 to aliases of ten
distinct items (ordinals in any relative line order), the text written one
item per line as `"n. alias"` is detected as a completed task, for
user-authored and assistant-authored text alike. -/
theorem ranked_permutation_completes :
    ∀ L : List (Nat × String),
      (L.map Prod.fst).Perm (List.range' 1 10) →
      (∀ p ∈ L, p.2 ∈ all_aliases) →
      (L.map fun p => (alias2key p.2).getD "").Nodup →
      ∀ u : Bool,
        detect_task_completed (String.mk (renderRanked L)) u = true := by
  intro L hperm halias hnodup u
  have hok : ∀ p ∈ L, lineOK p := by
    intro p hp
    have hmem : p.1 ∈ List.range' 1 10 :=
      hperm.subset (List.mem_map_of_mem Prod.fst hp)
    have hb := List.mem_range'_1.1 hmem
    obtain ⟨hne, hch⟩ := alias_table_ok p.2 (halias p hp)
    exact ⟨by omega, by omega, hne, hch⟩
  have hL : L ≠ [] := by
    intro h
    subst h
    have := hperm.length_eq
    simp at this
  set t : String := String.mk (renderRanked L) with ht
  have hdata : t.data = renderRanked L := rfl
  have hne : t.data ≠ [] := by
    rw [hdata]
    cases L with
    | nil => exact absurd rfl hL
    | cons p L' => exact renderRanked_ne_nil
  have hparse1 : rankedNums t = (accumulate (scanA t.data ++ scanB t.data)).1 := by
    unfold rankedNums _parse_ranked_items
    rw [if_neg hne]
  have hparse2 : rankedGoods t = (accumulate (scanA t.data ++ scanB t.data)).2 := by
    unfold rankedGoods _parse_ranked_items
    rw [if_neg hne]
  have hscan : scanA t.data = L.map fun p => (p.1, p.2.data) := by
    rw [hdata]
    exact scanA_render hok
  have hkeymem : ∀ p ∈ L, ∃ key, alias2key p.2 = some key ∧
      p.1 ∈ rankedNums t ∧ key ∈ rankedGoods t := by
    intro p hp
    obtain ⟨hnorm, hsome⟩ := normalize_alias p.2 (halias p hp)
    obtain ⟨key, hkey⟩ := Option.isSome_iff_exists.1 hsome
    have hmem : (p.1, p.2.data) ∈ scanA t.data ++ scanB t.data :=
      List.mem_append_left _ (hscan ▸ List.mem_map_of_mem _ hp)
    have hres : _normalize_item p.2.data = some key := by rw [hnorm, hkey]
    have hacc := accumulate_mem_of_resolved hmem hres
    exact ⟨key, hkey, hparse1 ▸ hacc.1, hparse2 ▸ hacc.2⟩
  have hsub1 : Finset.Icc 1 10 ⊆ rankedNums t := by
    intro k hk
    have hk2 : k ∈ List.range' 1 10 := by
      have := Finset.mem_Icc.1 hk
      exact List.mem_range'_1.2 (by omega)
    obtain ⟨p, hp, hpk⟩ := List.mem_map.1 (hperm.mem_iff.2 hk2)
    obtain ⟨key, _, hnum, _⟩ := hkeymem p hp
    exact hpk ▸ hnum
  have hnums : rankedNums t = Finset.Icc 1 10 :=
    Finset.Subset.antisymm (rankedNums_subset_Icc t) hsub1
  have hlen : L.length = 10 := by
    have := hperm.length_eq
    simpa using this
  have hglist : ∀ x ∈ L.map (fun p => (alias2key p.2).getD ""),
      x ∈ rankedGoods t := by
    intro x hx
    obtain ⟨p, hp, hpx⟩ := List.mem_map.1 hx
    obtain ⟨key, hkey, _, hgood⟩ := hkeymem p hp
    rw [← hpx, hkey]
    simpa using hgood
  have hcard_ge : 10 ≤ (rankedGoods t).card := by
    have hsubf : (L.map fun p => (alias2key p.2).getD "").toFinset ⊆
        rankedGoods t := fun x hx => hglist x (List.mem_toFinset.1 hx)
    have hcardf : (L.map fun p => (alias2key p.2).getD "").toFinset.card = 10 := by
      rw [List.toFinset_card_of_nodup hnodup]
      simp [hlen]
    have := Finset.card_le_card hsubf
    omega
  have hcard_le : (rankedGoods t).card ≤ 10 := by
    have hsubf : rankedGoods t ⊆ itemKeys.toFinset := fun k hk =>
      List.mem_toFinset.2 (rankedGoods_subset_keys t k hk)
    have hik : itemKeys.toFinset.card = 10 := by decide
    have := Finset.card_le_card hsubf
    omega
  have hrc : rankedComplete t = true := by
    rw [rankedComplete_eq]
    have h1 : ((rankedNums t).card == 10) = true := by rw [hnums]; decide
    have h2 : ((List.range' 1 10).all fun n => decide (n ∈ rankedNums t)) = true := by
      rw [hnums]; decide
    have h3 : ((rankedGoods t).card == 10) = true := by
      have : (rankedGoods t).card = 10 := le_antisymm hcard_le hcard_ge
      simp [this]
    rw [h1, h2, h3]
    rfl
  unfold detect_task_completed
  rw [hrc]
  simp

/-- Witness for C1: the ten lines in reversed ordinal order, written with
non-canonical aliases (网, 医疗包, 小刀, 塑胶布, 绳子, 驱鲨, 镜子, 水,
饼干, 打火机), complete the task for both authorship flags. -/
theorem ranked_permutation_completes_witness :
    detect_task_completed (String.mk (renderRanked
      [(10, "网"), (9, "医疗包"), (8, "小刀"), (7, "塑胶布"), (6, "绳子"),
       (5, "驱鲨"), (4, "镜子"), (3, "水"), (2, "饼干"), (1, "打火机")])) false = true ∧
    detect_task_completed (String.mk (renderRanked
      [(10, "网"), (9, "医疗包"), (8, "小刀"), (7, "塑胶布"), (6, "绳子"),
       (5, "驱鲨"), (4, "镜子"), (3, "水"), (2, "饼干"), (1, "打火机")])) true = true :=
  ⟨ranked_permutation_completes _ (by decide) (by decide) (by decide) false,
   ranked_permutation_completes _ (by decide) (by decide) (by decide) true⟩

/-- Counterexample to C7 as stated: in the crisis_role_task variant the
assistant reply is appended without ever being run through the detector, so
a turn whose service reply is a complete numbered ranking (which the
detector itself classifies as complete under the assistant-side rule)
leaves the session unterminated. -/
theorem crisis_reply_unchecked_cex :
    (crisisTurnBody ⟨false, none, []⟩ "你好"
        "1. 打火机\n2. 压缩饼干\n3. 淡水\n4. 信号镜\n5. 鲨鱼驱赶剂\n6. 尼龙绳\n7. 塑料布\n8. 匕首\n9. 急救包\n10. 渔网").finished = false ∧
    detect_task_completed
        "1. 打火机\n2. 压缩饼干\n3. 淡水\n4. 信号镜\n5. 鲨鱼驱赶剂\n6. 尼龙绳\n7. 塑料布\n8. 匕首\n9. 急救包\n10. 渔网" false = true :=
  ⟨by decide, by decide⟩

/-- C7 amended: only the flight_role_social_prompt_presence variant runs the
service reply back through `detect_task_completed` (with `by_user=False`),
terminating the session whenever the reply completes the task; the
crisis_role_task variant terminates a turn only on the user's own text. -/
theorem reply_detector_gate :
    (∀ (st : ChatSession) (u r : String),
      detect_task_completed r false = true →
      (flightTurnBody st u r).finished = true) ∧
    (∀ (st : ChatSession) (u r : String),
      (crisisTurnBody st u r).finished = true →
      st.finished = true ∨ detect_task_completed u true = true) := by
  constructor
  · intro st u r hr
    unfold flightTurnBody
    split
    · rfl
    · simp [hr]
  · intro st u r h
    unfold crisisTurnBody at h
    split at h
    next hu => exact Or.inr hu
    next hu => exact Or.inl (by simpa using h)

/-- Witness for the amended C7: a flight-variant turn whose reply is a full
numbered ranking terminates the session. -/
theorem reply_detector_gate_witness :
    (flightTurnBody ⟨false, none, []⟩ "你好"
        "1. 打火机\n2. 压缩饼干\n3. 淡水\n4. 信号镜\n5. 鲨鱼驱赶剂\n6. 尼龙绳\n7. 塑料布\n8. 匕首\n9. 急救包\n10. 渔网").finished = true :=
  reply_detector_gate.1 _ _ _ (by decide)

/-- C8: once a session is terminated the turn handlers are the identity on
the whole mutable session state (messages, matched items, stage/flags), and
the assistant_app stage value never decreases across a turn — stages only
advance 0 → 1 → … → 99. -/
theorem terminated_is_absorbing :
    (∀ (st : ChatSession) (tu : Bool) (u r : String),
      st.finished = true → flightStep st tu u r = st) ∧
    (∀ (st : AsstSession) (e : Bool) (u : String),
      st.stage = 99 → asstStep st e u = st) ∧
    (∀ (st : AsstSession) (e : Bool) (u : String),
      st.stage ≤ (asstStep st e u).stage) := by
  refine ⟨?_, ?_, ?_⟩
  · intro st tu u r hf
    unfold flightStep
    simp [hf]
  · intro st e u h99
    unfold asstStep
    simp [h99]
  · intro st e u
    unfold asstStep
    repeat' (first | omega | split | dsimp only)
    all_goals
      simp only [beq_iff_eq, Bool.and_eq_true, decide_eq_true_eq] at *
    all_goals omega

/-- Witness for C8: a terminated flight session and a stage-99
assistant_app session are left untouched by a further input turn. -/
theorem terminated_is_absorbing_witness :
    flightStep ⟨true, some "completed", []⟩ true "你好" "回复" =
      (⟨true, some "completed", []⟩ : ChatSession) ∧
    asstStep ⟨99, [], [], false⟩ true "water" =
      (⟨99, [], [], false⟩ : AsstSession) :=
  ⟨terminated_is_absorbing.1 ⟨true, some "completed", []⟩ true "你好" "回复" rfl,
   terminated_is_absorbing.2.1 ⟨99, [], [], false⟩ true "water" rfl⟩
